import Mathlib

/-!
Verification of the hyperparameter-tuning design of `pytorch-wrapper`
(tutorial notebook `3_tuning_image_classifier.ipynb`).

The notebook wires a parameterised CNN, a per-trial `step_function`, and a
declarative search space into a tuning loop.  The orchestration loop itself
(`pytorch_wrapper.tuner.Tuner`) is not part of the shipped sources here, so it
is modelled from the specification (sections 4.2, 5 and 7); the search space,
the data split, the model's size arithmetic and `step_function` are embedded
from the notebook directly.
-/

namespace PTW

/-- A concrete configuration: mapping from group name to mapping from
parameter name to sampled value (spec section 6).  Sampled values are
modelled as rationals. -/
abbrev Config := List (String × List (String × ℚ))

/-- Modelled from the spec: `ParameterSpec` (section 3) — sampling kind with
kind-specific parameters (choice list or bounds).  The `pytorch_wrapper.tuner`
module that consumes these is not among the sources. -/
inductive ParameterSpec where
  | categorical (choices : List ℚ)
  | uniform (lo hi : ℚ)
  | loguniform (lo hi : ℚ)
deriving DecidableEq

/-- `SearchSpace` (spec section 3): mapping from group name to mapping of
parameter name to `ParameterSpec`. -/
abbrev SearchSpace := List (String × List (String × ParameterSpec))

/-- The rational 0.5, as an explicit reduced fraction (kept in constructor
form so that it evaluates by kernel reduction). -/
def oneHalf : ℚ := ⟨1, 2, by decide, by decide⟩

/-- The rational 0.0001 (= 1/10000), as an explicit reduced fraction. -/
def lrLow : ℚ := ⟨1, 10000, by decide, by decide⟩

/-- The rational 0.1 (= 1/10), as an explicit reduced fraction. -/
def lrHigh : ℚ := ⟨1, 10, by decide, by decide⟩

/-- The `model_params` group of the notebook's search space: `hp.choice`
lists for the categorical parameters and `hp.uniform(0, 0.5)` for `dp`. -/
def model_params_specs : List (String × ParameterSpec) :=
  [("channels", .categorical [5, 10, 20, 30, 50]),
   ("kernel_size", .categorical [3, 5, 7]),
   ("depth", .categorical [1, 2, 3, 4]),
   ("dp", .uniform 0 oneHalf),
   ("mlp_depth", .categorical [1, 2, 3, 4]),
   ("mlp_hl", .categorical [32, 64, 128, 256])]

/-- The `training_params` group of the notebook's search space:
`hp.loguniform(log 0.0001, log 0.1)` for `lr` (so `lr` itself ranges over
`[0.0001, 0.1]`). -/
def training_params_specs : List (String × ParameterSpec) :=
  [("lr", .loguniform lrLow lrHigh)]

/-- The search space declared in the notebook
(`hyper_parameter_generators`). -/
def hyper_parameter_generators : SearchSpace :=
  [("model_params", model_params_specs),
   ("training_params", training_params_specs)]

/-- A concrete sample configuration for the declared search space. -/
def cfg_sample : Config :=
  [("model_params",
    [("channels", 5), ("kernel_size", 3), ("depth", 1), ("dp", 0),
     ("mlp_depth", 1), ("mlp_hl", 32)]),
   ("training_params", [("lr", lrLow)])]

/-- Modelled from the spec: the Suggestion Algorithm boundary (section 6) —
a sampled value conforms to its `ParameterSpec`: categorical values come from
the choice list, uniform values lie in `[lo, hi]`, log-uniform values lie in
`[lo, hi]` (they are sampled in log-space). -/
def sampleValid : ParameterSpec → ℚ → Prop
  | .categorical cs, v => v ∈ cs
  | .uniform lo hi, v => lo ≤ v ∧ v ≤ hi
  | .loguniform lo hi, v => lo ≤ v ∧ v ≤ hi

instance : ∀ (p : ParameterSpec) (v : ℚ), Decidable (sampleValid p v)
  | .categorical cs, v => inferInstanceAs (Decidable (v ∈ cs))
  | .uniform lo hi, v => inferInstanceAs (Decidable (lo ≤ v ∧ v ≤ hi))
  | .loguniform lo hi, v => inferInstanceAs (Decidable (lo ≤ v ∧ v ≤ hi))

/-- A configuration matches the search space structurally (same groups, same
parameter names, in declaration order) and every value conforms to its
declared sampling rule (spec section 3 invariant plus section 6 boundary). -/
def ConfigValid (s : SearchSpace) (cfg : Config) : Prop :=
  List.Forall₂
    (fun (gs : String × List (String × ParameterSpec))
         (gc : String × List (String × ℚ)) =>
      gs.1 = gc.1 ∧
        List.Forall₂ (fun ps pv => ps.1 = pv.1 ∧ sampleValid ps.2 pv.2) gs.2 gc.2)
    s cfg

instance (s : SearchSpace) (cfg : Config) : Decidable (ConfigValid s cfg) := by
  unfold ConfigValid; infer_instance

/-- Looks up the sampled value of parameter `p` in group `g` of a
configuration. -/
def lookupParam (cfg : Config) (g p : String) : Option ℚ :=
  (cfg.lookup g).bind (fun ps => ps.lookup p)

/-- Modelled from the spec: trial status (section 3) — completed with a
scalar loss, or failed with the error kind. -/
inductive TrialStatus where
  | completed (loss : ℚ)
  | failed (err : String)
deriving DecidableEq

/-- Modelled from the spec: `TrialRecord` (section 3) — trial index, the
materialized configuration, and the trial status. -/
structure TrialRecord where
  index : ℕ
  config : Config
  status : TrialStatus
deriving DecidableEq

/-- Whether the record's trial completed successfully. -/
def TrialRecord.isCompleted : TrialRecord → Bool
  | ⟨_, _, .completed _⟩ => true
  | ⟨_, _, .failed _⟩ => false

/-- The recorded loss (0 for failed records, which are excluded from
ranking anyway). -/
def TrialRecord.loss : TrialRecord → ℚ
  | ⟨_, _, .completed l⟩ => l
  | ⟨_, _, .failed _⟩ => 0

/-- Modelled from the spec: the ranking order of section 4.2 — ascending by
loss, ties broken by the earlier trial index (stability). -/
def rankLE (a b : TrialRecord) : Prop :=
  a.loss < b.loss ∨ (a.loss = b.loss ∧ a.index ≤ b.index)

instance : DecidableRel rankLE := fun a b =>
  inferInstanceAs (Decidable (a.loss < b.loss ∨ (a.loss = b.loss ∧ a.index ≤ b.index)))

instance : IsTotal TrialRecord rankLE where
  total a b := by
    rcases lt_trichotomy a.loss b.loss with h | h | h
    · exact Or.inl (Or.inl h)
    · rcases Nat.le_total a.index b.index with hi | hi
      · exact Or.inl (Or.inr ⟨h, hi⟩)
      · exact Or.inr (Or.inr ⟨h.symm, hi⟩)
    · exact Or.inr (Or.inl h)

instance : IsTrans TrialRecord rankLE where
  trans a b c hab hbc := by
    rcases hab with hab | ⟨hab, hab2⟩ <;> rcases hbc with hbc | ⟨hbc, hbc2⟩
    · exact Or.inl (hab.trans hbc)
    · exact Or.inl (hbc ▸ hab)
    · exact Or.inl (hab ▸ hbc)
    · exact Or.inr ⟨hab.trans hbc, hab2.trans hbc2⟩

/-- Modelled from the spec: `TuningResult` (section 3) — ordered sequence of
`TrialRecord` sorted ascending by loss, rank 0 the best. -/
structure TuningResult where
  ranked : List TrialRecord
deriving DecidableEq

/-- Modelled from the spec: the error taxonomy of section 7 relevant to the
orchestrator (`NoSuccessfulTrialError`). -/
inductive TunerError where
  | noSuccessfulTrial
deriving DecidableEq

/-- Modelled from the spec: the Trial Orchestrator loop (section 4.2) with the
between-trials cancellation check (section 5).  For each remaining trial at
index `i`: if the cancellation signal is set, stop; otherwise obtain a
candidate from `suggest` given the history so far, invoke `evaluate`, and
append a completed or failed record to the history. -/
def runLoop (evaluate : Config → Except String ℚ)
    (suggest : List TrialRecord → Config) (cancel : ℕ → Bool) :
    ℕ → ℕ → List TrialRecord → List TrialRecord
  | 0, _, hist => hist
  | n + 1, i, hist =>
    if cancel i then hist
    else
      let cfg := suggest hist
      let record : TrialRecord :=
        match evaluate cfg with
        | .ok loss => ⟨i, cfg, .completed loss⟩
        | .error e => ⟨i, cfg, .failed e⟩
      runLoop evaluate suggest cancel n (i + 1) (hist ++ [record])

/-- The full in-memory trial history produced by a run (spec section 4.2:
records are appended to an ordered trial history). -/
def runHistory (space : SearchSpace) (evaluate : Config → Except String ℚ)
    (suggest : SearchSpace → List TrialRecord → Config) (cancel : ℕ → Bool)
    (max_trials : ℕ) : List TrialRecord :=
  runLoop evaluate (suggest space) cancel max_trials 0 []

/-- Modelled from the spec: `run(search_space, evaluate, suggest, max_trials)`
(section 4.2) with the external cancellation signal of section 5.  After the
loop, the completed records are sorted ascending by loss (ties by earlier
trial index); if no trial completed, `run` fails with
`NoSuccessfulTrialError` (section 7). -/
def run (space : SearchSpace) (evaluate : Config → Except String ℚ)
    (suggest : SearchSpace → List TrialRecord → Config) (cancel : ℕ → Bool)
    (max_trials : ℕ) : Except TunerError TuningResult :=
  let hist := runHistory space evaluate suggest cancel max_trials
  let completed := hist.filter (fun r => r.isCompleted)
  if completed.isEmpty then .error .noSuccessfulTrial
  else .ok ⟨List.insertionSort rankLE completed⟩

/-- A cancellation signal that is never set. -/
def noCancel : ℕ → Bool := fun _ => false

/-- A cancellation signal that becomes set after trial `i` completes: it reads
false for every trial index up to `i` and true from `i + 1` on. -/
def cancelAfter (i : ℕ) : ℕ → Bool := fun j => decide (i < j)

/-- Projection of a run outcome: the `(index, loss)` pairs of the ranked
records, or `none` when the run failed. -/
def runRanked (x : Except TunerError TuningResult) : Option (List (ℕ × ℚ)) :=
  match x with
  | .ok res => some (res.ranked.map (fun r => (r.index, r.loss)))
  | .error _ => none

/-- Stub suggestion algorithm whose configuration records the current trial
index (the length of the history seen so far), so that a stub `evaluate` can
fail on chosen trial indices. -/
def suggest_index : SearchSpace → List TrialRecord → Config :=
  fun _ hist => [("i", [("i", (hist.length : ℚ))])]

/-- Stub evaluate that raises on trials 1 and 3 and succeeds with distinct
losses (10 on trial 0, 8 on trial 2, 6 afterwards) otherwise (spec section 8
scenario). -/
def evaluate_fail_13 : Config → Except String ℚ := fun c =>
  match lookupParam c "i" "i" with
  | some v =>
    if v = 1 ∨ v = 3 then .error "failed"
    else if v = 0 then .ok 10
    else if v = 2 then .ok 8
    else .ok 6
  | none => .error "failed"

/-- The result expected from a 5-trial run of the stubs above: trials 0, 2
and 4 completed (losses 10, 8, 6), ranked ascending by loss. -/
def result_13 : TuningResult :=
  ⟨[⟨4, [("i", [("i", 4)])], .completed 6⟩,
    ⟨2, [("i", [("i", 2)])], .completed 8⟩,
    ⟨0, [("i", [("i", 0)])], .completed 10⟩]⟩

/-- Shallow embedding of the notebook's `step_function`.  Building, training
(with early stopping) and evaluating the model are performed by the external
framework (`System.train`, `System.evaluate`); that pipeline is the oracle
`devMacroF1`, giving the macro F1 score measured on the dev data loader for
the chosen configuration.  The function returns the negation of that score:
`return -system.evaluate(dev_dataloader, evals)['f1'].score`. -/
def step_function (devMacroF1 : Config → ℚ) (current_params : Config) : ℚ :=
  -(devMacroF1 current_params)

/-- The parameter names declared by the `Model` constructor:
`def __init__(self, channels, kernel_size, depth, dp, mlp_depth, mlp_hl)`. -/
def declared_model_params : List String :=
  ["channels", "kernel_size", "depth", "dp", "mlp_depth", "mlp_hl"]

/-- Two key lists denote the same key set. -/
def sameKeys (ks ds : List String) : Bool :=
  ks.all (fun k => ds.contains k) && ds.all (fun k => ks.contains k)

/-- Modelled from the spec: `ConfigError` (sections 7 and 9) — the `Tuner`
module holding the error taxonomy is not among the sources. -/
inductive ConfigError where
  | keyMismatch (keys : List String)
deriving DecidableEq

/-- The materialized arguments of the `Model` factory. -/
structure ModelArgs where
  channels : ℚ
  kernel_size : ℚ
  depth : ℚ
  dp : ℚ
  mlp_depth : ℚ
  mlp_hl : ℚ
deriving DecidableEq

/-- Modelled from the spec (section 9): binding a configuration group to the
`Model` factory (`Model(**current_params['model_params'])` in the notebook)
validates the mapping's keys against the factory's declared parameter names
at call time and fails with `ConfigError` on mismatch. -/
def bindModelParams (m : List (String × ℚ)) : Except ConfigError ModelArgs :=
  if sameKeys (m.map Prod.fst) declared_model_params then
    .ok ⟨(m.lookup "channels").getD 0, (m.lookup "kernel_size").getD 0,
         (m.lookup "depth").getD 0, (m.lookup "dp").getD 0,
         (m.lookup "mlp_depth").getD 0, (m.lookup "mlp_hl").getD 0⟩
  else .error (.keyMismatch (m.map Prod.fst))

/-- `eval_size = math.floor(0.1 * len(train_val_dev_dataset))` from the
notebook's data split. -/
def eval_size (n : ℕ) : ℕ := n / 10

/-- `train_indexes = train_val_dev_indexes[eval_size * 2:]` — `l` is the
shuffled permutation of `range(n)`. -/
def train_indexes (l : List ℕ) : List ℕ := l.drop (2 * eval_size l.length)

/-- `val_indexes = train_val_dev_indexes[eval_size:eval_size * 2]`. -/
def val_indexes (l : List ℕ) : List ℕ :=
  (l.drop (eval_size l.length)).take (eval_size l.length)

/-- `dev_indexes = train_val_dev_indexes[:eval_size]`. -/
def dev_indexes (l : List ℕ) : List ℕ := l.take (eval_size l.length)

/-- Output spatial size of `nn.Conv2d(kernel_size=k, padding=floor(k/2))` at
stride 1 on an `n`-by-`n` input: `n + 2 * floor(k/2) - k + 1`. -/
def conv_out (n k : ℕ) : ℕ := n + 2 * (k / 2) + 1 - k

/-- Output spatial size of `nn.MaxPool2d(kernel_size=2)` (stride 2) on an
`n`-by-`n` input: `floor((n - 2) / 2) + 1`. -/
def pool_out (n : ℕ) : ℕ := (n - 2) / 2 + 1

/-- Spatial size after `d` of the model's CNN blocks (each block is a
padding-preserving convolution followed by a 2-by-2 max pool) on the 28-by-28
MNIST input.  The constructor builds 1 block plus `depth - 1` further blocks,
hence `depth` blocks in total. -/
def cnn_spatial (k : ℕ) : ℕ → ℕ
  | 0 => 28
  | d + 1 => pool_out (conv_out (cnn_spatial k d) k)

/-- The MLP input size computed by the `Model` constructor:
`int(pow(int(28 // (math.pow(2, depth))), 2)) * channels`. -/
def mlp_input_size (channels depth : ℕ) : ℕ := (28 / 2 ^ depth) ^ 2 * channels

/-! ### Helper lemmas -/

theorem conv_out_odd {k : ℕ} (hk : k % 2 = 1) (n : ℕ) : conv_out n k = n := by
  unfold conv_out; omega

theorem countP_add_countP_not (p : TrialRecord → Bool) (l : List TrialRecord) :
    l.countP p + l.countP (fun r => !p r) = l.length := by
  induction l with
  | nil => simp
  | cons a t ih =>
    by_cases hp : p a = true <;>
      simp [List.countP_cons, hp, ← ih] <;> omega

theorem run_eq (space : SearchSpace) (ev : Config → Except String ℚ)
    (sg : SearchSpace → List TrialRecord → Config) (cancel : ℕ → Bool) (M : ℕ) :
    run space ev sg cancel M =
      if ((runHistory space ev sg cancel M).filter (fun r => r.isCompleted)).isEmpty
      then .error .noSuccessfulTrial
      else .ok ⟨List.insertionSort rankLE
        ((runHistory space ev sg cancel M).filter (fun r => r.isCompleted))⟩ :=
  rfl

theorem runLoop_noCancel_length (ev : Config → Except String ℚ)
    (sg : List TrialRecord → Config) :
    ∀ (n i : ℕ) (h : List TrialRecord),
      (runLoop ev sg noCancel n i h).length = h.length + n := by
  intro n
  induction n with
  | zero => intro i h; simp [runLoop]
  | succ m ih =>
    intro i h
    rw [runLoop]
    simp only [noCancel, Bool.false_eq_true, if_false]
    rw [ih]
    simp
    omega

theorem runLoop_noCancel_map_index (ev : Config → Except String ℚ)
    (sg : List TrialRecord → Config) :
    ∀ (n i : ℕ) (h : List TrialRecord),
      (runLoop ev sg noCancel n i h).map (fun r => r.index) =
        h.map (fun r => r.index) ++ List.range' i n := by
  intro n
  induction n with
  | zero => intro i h; simp [runLoop]
  | succ m ih =>
    intro i h
    rw [runLoop]
    simp only [noCancel, Bool.false_eq_true, if_false]
    cases hev : ev (sg h) with
    | ok loss =>
      simp only [hev]
      rw [ih]
      simp [List.range'_succ]
    | error e =>
      simp only [hev]
      rw [ih]
      simp [List.range'_succ]

theorem runLoop_forall (ev : Config → Except String ℚ) (sg : List TrialRecord → Config)
    (cancel : ℕ → Bool) (P : TrialRecord → Prop)
    (hok : ∀ (i : ℕ) (cfg : Config) (loss : ℚ),
      ev cfg = .ok loss → P ⟨i, cfg, .completed loss⟩)
    (herr : ∀ (i : ℕ) (cfg : Config) (e : String),
      ev cfg = .error e → P ⟨i, cfg, .failed e⟩) :
    ∀ (n i : ℕ) (h : List TrialRecord), (∀ r ∈ h, P r) →
      ∀ r ∈ runLoop ev sg cancel n i h, P r := by
  intro n
  induction n with
  | zero => intro i h hh; simpa [runLoop] using hh
  | succ m ih =>
    intro i h hh
    rw [runLoop]
    by_cases hc : cancel i = true
    · simp only [hc, if_true]; exact hh
    · simp only [Bool.not_eq_true] at hc
      simp only [hc, Bool.false_eq_true, if_false]
      cases hev : ev (sg h) with
      | ok loss =>
        simp only [hev]
        refine ih (i + 1) (h ++ [⟨i, sg h, .completed loss⟩]) ?_
        intro r hr
        rcases List.mem_append.mp hr with hr | hr
        · exact hh r hr
        · rcases List.mem_singleton.mp hr with rfl
          exact hok i (sg h) loss hev
      | error e =>
        simp only [hev]
        refine ih (i + 1) (h ++ [⟨i, sg h, .failed e⟩]) ?_
        intro r hr
        rcases List.mem_append.mp hr with hr | hr
        · exact hh r hr
        · rcases List.mem_singleton.mp hr with rfl
          exact herr i (sg h) e hev

theorem runLoop_cancelAfter_map_index (ev : Config → Except String ℚ)
    (sg : List TrialRecord → Config) (i : ℕ) :
    ∀ (n j : ℕ) (h : List TrialRecord), j ≤ i + 1 → i < j + n →
      (runLoop ev sg (cancelAfter i) n j h).map (fun r => r.index) =
        h.map (fun r => r.index) ++ List.range' j (i + 1 - j) := by
  intro n
  induction n with
  | zero =>
    intro j h hj hi
    have hj1 : j = i + 1 := by omega
    subst hj1
    simp [runLoop]
  | succ m ih =>
    intro j h hj hi
    rw [runLoop]
    by_cases hc : i < j
    · have hj1 : j = i + 1 := by omega
      subst hj1
      simp [cancelAfter]
    · have hcf : cancelAfter i j = false := by simp [cancelAfter]; omega
      simp only [hcf, Bool.false_eq_true, if_false]
      have harith : i + 1 - j = (i - j) + 1 := by omega
      have harith2 : i + 1 - (j + 1) = i - j := by omega
      cases hev : ev (sg h) with
      | ok loss =>
        simp only [hev]
        rw [ih (j + 1) _ (by omega) (by omega)]
        simp [harith, harith2, List.range'_succ]
      | error e =>
        simp only [hev]
        rw [ih (j + 1) _ (by omega) (by omega)]
        simp [harith, harith2, List.range'_succ]

theorem runLoop_congr_suggest (ev : Config → Except String ℚ)
    (sg1 sg2 : List TrialRecord → Config) (i : ℕ) :
    ∀ (n j : ℕ) (h : List TrialRecord),
      (∀ h2 : List TrialRecord, h2.length + j ≤ h.length + i → sg1 h2 = sg2 h2) →
      runLoop ev sg1 (cancelAfter i) n j h = runLoop ev sg2 (cancelAfter i) n j h := by
  intro n
  induction n with
  | zero => intro j h _; simp [runLoop]
  | succ m ih =>
    intro j h hsg
    rw [runLoop, runLoop]
    by_cases hc : i < j
    · simp [cancelAfter, hc]
    · have hcf : cancelAfter i j = false := by simp [cancelAfter]; omega
      simp only [hcf, Bool.false_eq_true, if_false]
      have hg : sg1 h = sg2 h := hsg h (by omega)
      rw [hg]
      exact ih (j + 1) _ (by intro h2 hh2; exact hsg h2 (by simp at hh2; omega))

theorem sameKeys_iff (ks ds : List String) :
    sameKeys ks ds = true ↔ (∀ k, k ∈ ks ↔ k ∈ ds) := by
  unfold sameKeys
  simp only [Bool.and_eq_true, List.all_eq_true, List.contains, List.elem_eq_mem,
    decide_eq_true_eq]
  constructor
  · rintro ⟨h1, h2⟩ k
    exact ⟨fun hk => h1 k hk, fun hk => h2 k hk⟩
  · intro h
    exact ⟨fun k hk => (h k).mp hk, fun k hk => (h k).mpr hk⟩

theorem lookup_forall₂_valid :
    ∀ {specs : List (String × ParameterSpec)} {vals : List (String × ℚ)},
      List.Forall₂ (fun ps pv => ps.1 = pv.1 ∧ sampleValid ps.2 pv.2) specs vals →
      ∀ {p : String} {sp : ParameterSpec} {v : ℚ},
        specs.lookup p = some sp → vals.lookup p = some v → sampleValid sp v := by
  intro specs vals h
  induction h with
  | nil =>
    intro p sp v hs _
    simp [List.lookup] at hs
  | @cons a b l1 l2 hab htail ih =>
    intro p sp v hs hv
    obtain ⟨a1, a2⟩ := a
    obtain ⟨b1, b2⟩ := b
    obtain ⟨hname, hvalid⟩ := hab
    dsimp at hname
    subst hname
    simp only [List.lookup] at hs hv
    cases hpk : p == a1 with
    | false =>
      rw [hpk] at hs hv
      exact ih hs hv
    | true =>
      rw [hpk] at hs hv
      simp only [Option.some.injEq] at hs hv
      subst hs
      subst hv
      exact hvalid

theorem configValid_lookupParam {s : SearchSpace} {cfg : Config}
    (h : ConfigValid s cfg) :
    ∀ {g p : String} {specs : List (String × ParameterSpec)}
      {sp : ParameterSpec} {v : ℚ},
      s.lookup g = some specs → specs.lookup p = some sp →
      lookupParam cfg g p = some v → sampleValid sp v := by
  unfold ConfigValid at h
  induction h with
  | nil =>
    intro g p specs sp v hg
    simp [List.lookup] at hg
  | @cons a b l1 l2 hab htail ih =>
    intro g p specs sp v hg hp hv
    obtain ⟨a1, a2⟩ := a
    obtain ⟨b1, b2⟩ := b
    obtain ⟨hname, hinner⟩ := hab
    dsimp at hname
    subst hname
    unfold lookupParam at hv
    simp only [List.lookup] at hg hv
    cases hpk : g == a1 with
    | false =>
      rw [hpk] at hg hv
      exact ih hg hp hv
    | true =>
      rw [hpk] at hg hv
      simp only [Option.some.injEq] at hg
      subst hg
      simp only [Option.bind_some] at hv
      exact lookup_forall₂_valid hinner hp hv

/-! ### Claim theorems -/

/-- C3: if `evaluate` raises on every trial, `run` raises
`NoSuccessfulTrialError` and returns no `TuningResult`; moreover `run` never
returns an empty ranking. -/
theorem run_raises_when_all_trials_fail :
    (∀ (space : SearchSpace) (ev : Config → Except String ℚ)
        (sg : SearchSpace → List TrialRecord → Config) (cancel : ℕ → Bool) (M : ℕ),
      (∀ c, ∃ e, ev c = .error e) →
      run space ev sg cancel M = .error .noSuccessfulTrial) ∧
    (∀ (space : SearchSpace) (ev : Config → Except String ℚ)
        (sg : SearchSpace → List TrialRecord → Config) (cancel : ℕ → Bool) (M : ℕ)
        (res : TuningResult),
      run space ev sg cancel M = .ok res → res.ranked ≠ []) := by
  constructor
  · intro space ev sg cancel M hev
    have hall : ∀ r ∈ runHistory space ev sg cancel M, r.isCompleted = false := by
      refine runLoop_forall ev (sg space) cancel (fun r => r.isCompleted = false)
        ?_ ?_ M 0 [] (by simp)
      · intro i cfg loss hl
        rcases hev cfg with ⟨e, he⟩
        rw [he] at hl
        exact Except.noConfusion hl
      · intro i cfg e _
        rfl
    have hfilter :
        (runHistory space ev sg cancel M).filter (fun r => r.isCompleted) = [] :=
      List.filter_eq_nil_iff.mpr (fun r hr => by simp [hall r hr])
    rw [run_eq, hfilter]
    rfl
  · intro space ev sg cancel M res hres
    rw [run_eq] at hres
    by_cases hemp :
        ((runHistory space ev sg cancel M).filter (fun r => r.isCompleted)).isEmpty = true
    · rw [if_pos hemp] at hres
      exact Except.noConfusion hres
    · rw [if_neg hemp] at hres
      injection hres with h
      subst h
      intro hnil
      simp only at hnil
      have hperm := List.perm_insertionSort rankLE
        ((runHistory space ev sg cancel M).filter (fun r => r.isCompleted))
      rw [hnil] at hperm
      rw [hperm.symm.eq_nil] at hemp
      simp at hemp

/-- C3 witness: a 4-trial run whose evaluate always raises ends in
`NoSuccessfulTrialError`. -/
theorem run_raises_when_all_trials_fail_witness :
    run hyper_parameter_generators (fun _ => .error "boom") (fun _ _ => []) noCancel 4 =
      .error .noSuccessfulTrial :=
  run_raises_when_all_trials_fail.1 hyper_parameter_generators
    (fun _ => .error "boom") (fun _ _ => []) noCancel 4 (fun _ => ⟨"boom", rfl⟩)

/-- C6: with extensionally equal deterministic `suggest`, `evaluate` and
cancellation stubs, two invocations of `run` produce identical
`TuningResult`s. -/
theorem run_deterministic (space : SearchSpace)
    (ev1 ev2 : Config → Except String ℚ)
    (sg1 sg2 : SearchSpace → List TrialRecord → Config)
    (c1 c2 : ℕ → Bool) (M : ℕ)
    (hev : ∀ c, ev1 c = ev2 c) (hsg : ∀ s h, sg1 s h = sg2 s h)
    (hc : ∀ j, c1 j = c2 j) :
    run space ev1 sg1 c1 M = run space ev2 sg2 c2 M := by
  have h1 : ev1 = ev2 := funext hev
  have h2 : sg1 = sg2 := funext fun s => funext fun h => hsg s h
  have h3 : c1 = c2 := funext hc
  subst h1 h2 h3
  rfl

/-- C6 witness: two invocations of `run` with the same fixed stubs agree. -/
theorem run_deterministic_witness :
    run hyper_parameter_generators (fun _ => .ok 1) (fun _ _ => []) noCancel 3 =
      run hyper_parameter_generators (fun _ => .ok 1) (fun _ _ => []) noCancel 3 :=
  run_deterministic hyper_parameter_generators _ _ _ _ _ _ 3
    (fun _ => rfl) (fun _ _ => rfl) (fun _ => rfl)

/-- C7: `step_function` returns the negation of the macro F1 score measured
on the dev data loader, so a strictly higher F1 yields a strictly lower
returned loss, and the returned value is a single scalar loss. -/
theorem step_function_negates_dev_f1 :
    (∀ (devMacroF1 : Config → ℚ) (cp : Config),
      step_function devMacroF1 cp = -(devMacroF1 cp)) ∧
    (∀ (devMacroF1 : Config → ℚ) (cp1 cp2 : Config),
      devMacroF1 cp1 < devMacroF1 cp2 →
        step_function devMacroF1 cp2 < step_function devMacroF1 cp1) := by
  refine ⟨fun f cp => rfl, fun f cp1 cp2 h => ?_⟩
  simpa [step_function] using neg_lt_neg h

/-- C7 witness: a configuration with the higher F1 score gets the strictly
lower loss. -/
theorem step_function_negates_dev_f1_witness :
    step_function (fun c => (c.length : ℚ)) [("a", [])] <
      step_function (fun c => (c.length : ℚ)) [] :=
  step_function_negates_dev_f1.2 (fun c => (c.length : ℚ)) [] [("a", [])] (by decide)

/-- C8: binding a configuration group to the `Model` factory validates the
mapping's keys against the declared parameter names
`{channels, kernel_size, depth, dp, mlp_depth, mlp_hl}` at call time;
a mapping whose key set differs fails with `ConfigError` instead of being
silently ignored. -/
theorem bindModelParams_validates_keys :
    (∀ m : List (String × ℚ),
      (∃ args, bindModelParams m = .ok args) ↔
        (∀ k, k ∈ m.map Prod.fst ↔ k ∈ declared_model_params)) ∧
    (∀ m : List (String × ℚ),
      ¬ (∀ k, k ∈ m.map Prod.fst ↔ k ∈ declared_model_params) →
        bindModelParams m = .error (.keyMismatch (m.map Prod.fst))) := by
  constructor
  · intro m
    constructor
    · rintro ⟨args, ha⟩
      unfold bindModelParams at ha
      by_cases hsk : sameKeys (m.map Prod.fst) declared_model_params = true
      · exact (sameKeys_iff _ _).mp hsk
      · rw [if_neg hsk] at ha
        exact Except.noConfusion ha
    · intro hk
      have hsk := (sameKeys_iff (m.map Prod.fst) declared_model_params).mpr hk
      exact ⟨_, by rw [bindModelParams, if_pos hsk]⟩
  · intro m hk
    have hsk : sameKeys (m.map Prod.fst) declared_model_params = false := by
      rcases hb : sameKeys (m.map Prod.fst) declared_model_params with _ | _
      · rfl
      · exact absurd ((sameKeys_iff _ _).mp hb) hk
    rw [bindModelParams, if_neg (by rw [hsk]; exact Bool.false_ne_true)]

/-- C8 witness: a mapping missing five of the declared parameters is rejected
with a `ConfigError` key mismatch. -/
theorem bindModelParams_validates_keys_witness :
    bindModelParams [("channels", (1 : ℚ))] =
      .error (.keyMismatch (List.map Prod.fst [("channels", (1 : ℚ))])) :=
  bindModelParams_validates_keys.2 [("channels", (1 : ℚ))]
    (fun hall => absurd ((hall "kernel_size").mpr (by decide)) (by decide))

/-- C10: for positive `channels`, odd `kernel_size` and `depth` from the
declared choices, the `Model` constructor's MLP input size
`int(pow(int(28 // 2^depth), 2)) * channels` equals the flattened feature
count the CNN produces on a 28-by-28 input, it is positive, and
`28 // 2^depth` equals `depth`-fold iterated floor-halving of 28. -/
theorem model_mlp_input_size_matches_cnn (channels k depth : ℕ)
    (hc : 1 ≤ channels) (hk : k % 2 = 1) (hd : depth ∈ ([1, 2, 3, 4] : List ℕ)) :
    mlp_input_size channels depth = cnn_spatial k depth ^ 2 * channels ∧
    0 < mlp_input_size channels depth ∧
    28 / 2 ^ depth = (fun n => n / 2)^[depth] 28 := by
  have hco := conv_out_odd hk
  simp only [List.mem_cons, List.not_mem_nil, or_false] at hd
  rcases hd with rfl | rfl | rfl | rfl
  all_goals
    exact ⟨by norm_num [mlp_input_size, cnn_spatial, pool_out, hco],
      by norm_num [mlp_input_size]; omega,
      by decide⟩

/-- C10 witness: at `channels = 5`, `kernel_size = 3`, `depth = 2` the MLP
input size matches the CNN's flattened feature count. -/
theorem model_mlp_input_size_matches_cnn_witness :
    1 ≤ 5 ∧ 3 % 2 = 1 ∧ 2 ∈ ([1, 2, 3, 4] : List ℕ) ∧
      mlp_input_size 5 2 = cnn_spatial 3 2 ^ 2 * 5 :=
  ⟨by decide, by decide, by decide,
    (model_mlp_input_size_matches_cnn 5 3 2 (by decide) (by decide) (by decide)).1⟩

/-- C9: for `l` the shuffled permutation of `range(n)` and
`e = floor(0.1 * n)`, the notebook's train/val/dev index slices have sizes
`n - 2e`, `e`, `e`, are pairwise disjoint, and together cover exactly
`{0, ..., n - 1}`. -/
theorem data_split_partition (n : ℕ) (l : List ℕ) (hl : l.Perm (List.range n)) :
    (dev_indexes l).length = eval_size n ∧
    (val_indexes l).length = eval_size n ∧
    (train_indexes l).length = n - 2 * eval_size n ∧
    (∀ k, ¬(k ∈ dev_indexes l ∧ k ∈ val_indexes l)) ∧
    (∀ k, ¬(k ∈ dev_indexes l ∧ k ∈ train_indexes l)) ∧
    (∀ k, ¬(k ∈ val_indexes l ∧ k ∈ train_indexes l)) ∧
    (∀ k, (k ∈ dev_indexes l ∨ k ∈ val_indexes l ∨ k ∈ train_indexes l) ↔ k < n) := by
  have hlen : l.length = n := by simpa using hl.length_eq
  have h2e : 2 * eval_size n ≤ n := by unfold eval_size; omega
  have hdecomp : dev_indexes l ++ (val_indexes l ++ train_indexes l) = l := by
    unfold dev_indexes val_indexes train_indexes
    rw [hlen]
    have h1 : l.drop (2 * eval_size n) = (l.drop (eval_size n)).drop (eval_size n) := by
      rw [List.drop_drop, two_mul]
    rw [h1, List.take_append_drop, List.take_append_drop]
  have hnd : l.Nodup := hl.nodup_iff.mpr (List.nodup_range n)
  have hnd2 : (dev_indexes l ++ (val_indexes l ++ train_indexes l)).Nodup := by
    rw [hdecomp]; exact hnd
  obtain ⟨hndDev, hnd3, hdisj1⟩ := List.nodup_append.mp hnd2
  obtain ⟨hndVal, hndTrain, hdisj2⟩ := List.nodup_append.mp hnd3
  refine ⟨?_, ?_, ?_, ?_, ?_, ?_, ?_⟩
  · simp only [dev_indexes, List.length_take, hlen]
    unfold eval_size; omega
  · simp only [val_indexes, List.length_take, List.length_drop, hlen]
    unfold eval_size; omega
  · simp only [train_indexes, List.length_drop, hlen]
  · exact fun k ⟨h1, h2⟩ => hdisj1 h1 (List.mem_append_left _ h2)
  · exact fun k ⟨h1, h2⟩ => hdisj1 h1 (List.mem_append_right _ h2)
  · exact fun k ⟨h1, h2⟩ => hdisj2 h1 h2
  · intro k
    have hmem : (k ∈ dev_indexes l ∨ k ∈ val_indexes l ∨ k ∈ train_indexes l) ↔ k ∈ l := by
      conv_rhs => rw [← hdecomp]
      simp [List.mem_append]
    rw [hmem, hl.mem_iff, List.mem_range]

/-- C9 witness: at `n = 20` with the identity shuffle, the dev slice has the
expected size `eval_size 20`. -/
theorem data_split_partition_witness :
    (List.range 20).Perm (List.range 20) ∧
      (dev_indexes (List.range 20)).length = eval_size 20 :=
  ⟨List.Perm.refl _, (data_split_partition 20 (List.range 20) (List.Perm.refl _)).1⟩

/-- C1: a run of `N > 0` trials whose evaluate always succeeds returns a
`TuningResult` with exactly `N` records, sorted ascending by loss with ties
broken by the earlier trial index, and rank 0's loss is less than or equal
to every other record's loss. -/
theorem run_all_success_ranked (space : SearchSpace)
    (ev : Config → Except String ℚ) (sg : SearchSpace → List TrialRecord → Config)
    (N : ℕ) (hN : 0 < N) (hev : ∀ c, ∃ q, ev c = .ok q) :
    ∃ res : TuningResult,
      run space ev sg noCancel N = .ok res ∧
      res.ranked.length = N ∧
      res.ranked.Pairwise
        (fun a b => a.loss < b.loss ∨ (a.loss = b.loss ∧ a.index < b.index)) ∧
      (∀ best, res.ranked.head? = some best → ∀ r ∈ res.ranked, best.loss ≤ r.loss) := by
  have hall : ∀ r ∈ runHistory space ev sg noCancel N, r.isCompleted = true := by
    refine runLoop_forall ev (sg space) noCancel (fun r => r.isCompleted = true)
      ?_ ?_ N 0 [] (by simp)
    · intro i cfg loss _
      rfl
    · intro i cfg e he
      rcases hev cfg with ⟨q, hq⟩
      rw [hq] at he
      exact Except.noConfusion he
  have hfl : (runHistory space ev sg noCancel N).filter (fun r => r.isCompleted) =
      runHistory space ev sg noCancel N :=
    List.filter_eq_self.mpr (fun a ha => by simp [hall a ha])
  have hlen : (runHistory space ev sg noCancel N).length = N := by
    simpa using runLoop_noCancel_length ev (sg space) N 0 []
  have hmap : (runHistory space ev sg noCancel N).map (fun r => r.index) =
      List.range' 0 N := by
    simpa using runLoop_noCancel_map_index ev (sg space) N 0 []
  have hemp : ((runHistory space ev sg noCancel N).filter
      (fun r => r.isCompleted)).isEmpty = false := by
    rw [hfl]
    cases hhist : runHistory space ev sg noCancel N with
    | nil => rw [hhist] at hlen; simp at hlen; omega
    | cons a t => rfl
  have hperm := List.perm_insertionSort rankLE
    ((runHistory space ev sg noCancel N).filter (fun r => r.isCompleted))
  have hsorted : List.Sorted rankLE (List.insertionSort rankLE
      ((runHistory space ev sg noCancel N).filter (fun r => r.isCompleted))) :=
    List.sorted_insertionSort rankLE _
  refine ⟨⟨List.insertionSort rankLE
      ((runHistory space ev sg noCancel N).filter (fun r => r.isCompleted))⟩,
    ?_, ?_, ?_, ?_⟩
  · rw [run_eq, hemp]
    rfl
  · show (List.insertionSort rankLE _).length = N
    rw [hperm.length_eq, hfl, hlen]
  · show (List.insertionSort rankLE _).Pairwise _
    have hndidx : ((List.insertionSort rankLE ((runHistory space ev sg noCancel N).filter
        (fun r => r.isCompleted))).map (fun r => r.index)).Nodup := by
      refine ((hperm.map (fun r => r.index)).nodup_iff).mpr ?_
      rw [hfl, hmap]
      exact List.nodup_range' 0 N
    have hpne := List.pairwise_map.mp hndidx
    refine List.Pairwise.imp ?_ (List.Pairwise.and hsorted hpne)
    rintro a b ⟨hab, hne⟩
    rcases hab with h | ⟨h1, h2⟩
    · exact Or.inl h
    · exact Or.inr ⟨h1, lt_of_le_of_ne h2 hne⟩
  · show ∀ best, (List.insertionSort rankLE _).head? = some best →
      ∀ r ∈ List.insertionSort rankLE _, best.loss ≤ r.loss
    intro best hb r hr
    cases hsl : List.insertionSort rankLE ((runHistory space ev sg noCancel N).filter
        (fun r => r.isCompleted)) with
    | nil =>
      rw [hsl] at hb
      exact absurd hb (by simp)
    | cons a t =>
      rw [hsl] at hb hr hsorted
      have hba : a = best := by simpa using hb
      subst hba
      rcases List.mem_cons.mp hr with rfl | hrt
      · exact le_refl _
      · rcases List.rel_of_sorted_cons hsorted r hrt with h | ⟨h, _⟩
        · exact le_of_lt h
        · exact le_of_eq h

/-- C1 witness: a 20-trial run (the notebook's `fit_iterations=20`) with an
always-succeeding evaluate produces a fully ranked 20-record result. -/
theorem run_all_success_ranked_witness :
    ∃ res : TuningResult,
      run hyper_parameter_generators (fun _ => .ok 0) (fun _ _ => []) noCancel 20 =
        .ok res ∧
      res.ranked.length = 20 ∧
      res.ranked.Pairwise
        (fun a b => a.loss < b.loss ∨ (a.loss = b.loss ∧ a.index < b.index)) ∧
      (∀ best, res.ranked.head? = some best → ∀ r ∈ res.ranked, best.loss ≤ r.loss) :=
  run_all_success_ranked hyper_parameter_generators (fun _ => .ok 0) (fun _ _ => [])
    20 (by decide) (fun _ => ⟨0, rfl⟩)

/-- C2: per-trial fault isolation — a failing trial is recorded in the
history rather than propagated, the loop runs through all `M` trials, the
result ranks exactly the `M - |F|` successful records; concretely, with
failures on trials 1 and 3 out of 5, the run returns the 3 successful
records ranked by loss and the 2 failures appear in history marked failed. -/
theorem run_isolates_trial_failures :
    (∀ (space : SearchSpace) (ev : Config → Except String ℚ)
        (sg : SearchSpace → List TrialRecord → Config) (M : ℕ),
      (runHistory space ev sg noCancel M).length = M) ∧
    (∀ (space : SearchSpace) (ev : Config → Except String ℚ)
        (sg : SearchSpace → List TrialRecord → Config) (M : ℕ) (res : TuningResult),
      run space ev sg noCancel M = .ok res →
      res.ranked.length =
        M - (runHistory space ev sg noCancel M).countP (fun r => !r.isCompleted)) ∧
    runRanked (run hyper_parameter_generators evaluate_fail_13 suggest_index noCancel 5) =
      some [(4, 6), (2, 8), (0, 10)] ∧
    (runHistory hyper_parameter_generators evaluate_fail_13 suggest_index noCancel 5).map
        (fun r => (r.index, r.isCompleted)) =
      [(0, true), (1, false), (2, true), (3, false), (4, true)] := by
  refine ⟨?_, ?_, by decide, by decide⟩
  · intro space ev sg M
    simpa using runLoop_noCancel_length ev (sg space) M 0 []
  · intro space ev sg M res hres
    rw [run_eq] at hres
    by_cases hemp : ((runHistory space ev sg noCancel M).filter
        (fun r => r.isCompleted)).isEmpty = true
    · rw [if_pos hemp] at hres
      exact Except.noConfusion hres
    · rw [if_neg hemp] at hres
      injection hres with h
      subst h
      show (List.insertionSort rankLE _).length = _
      rw [(List.perm_insertionSort rankLE _).length_eq]
      have hc := countP_add_countP_not (fun r => r.isCompleted)
        (runHistory space ev sg noCancel M)
      have hlen : (runHistory space ev sg noCancel M).length = M := by
        simpa using runLoop_noCancel_length ev (sg space) M 0 []
      rw [← List.countP_eq_length_filter]
      omega

/-- C2 witness: the concrete 5-trial run with failures on trials 1 and 3
ranks `5 - 2 = 3` records. -/
theorem run_isolates_trial_failures_witness :
    run hyper_parameter_generators evaluate_fail_13 suggest_index noCancel 5 =
      .ok result_13 ∧
    result_13.ranked.length =
      5 - (runHistory hyper_parameter_generators evaluate_fail_13 suggest_index
        noCancel 5).countP (fun r => !r.isCompleted) :=
  ⟨rfl, run_isolates_trial_failures.2.1 hyper_parameter_generators evaluate_fail_13
    suggest_index 5 result_13 rfl⟩

/-- C5: when the cancellation signal becomes set after trial `i` completes
(`i < M - 1`), the loop stops before starting trial `i + 1`: the history is
exactly the records of trials `0..i`, the returned `TuningResult` ranks
exactly those records, and the run never consults `suggest` on any history
longer than `i` (i.e. for any trial index greater than `i`). -/
theorem run_stops_on_cancellation (space : SearchSpace)
    (ev : Config → Except String ℚ) (sg : SearchSpace → List TrialRecord → Config)
    (M i : ℕ) (hiM : i < M - 1) (hev : ∀ c, ∃ q, ev c = .ok q) :
    (runHistory space ev sg (cancelAfter i) M).map (fun r => r.index) =
      List.range (i + 1) ∧
    (∃ res, run space ev sg (cancelAfter i) M = .ok res ∧
      res.ranked.Perm (runHistory space ev sg (cancelAfter i) M)) ∧
    (∀ sg2 : SearchSpace → List TrialRecord → Config,
      (∀ h : List TrialRecord, h.length ≤ i → sg2 space h = sg space h) →
      run space ev sg2 (cancelAfter i) M = run space ev sg (cancelAfter i) M) := by
  have hmap : (runHistory space ev sg (cancelAfter i) M).map (fun r => r.index) =
      List.range' 0 (i + 1) := by
    have := runLoop_cancelAfter_map_index ev (sg space) i M 0 [] (by omega) (by omega)
    simpa using this
  have hall : ∀ r ∈ runHistory space ev sg (cancelAfter i) M, r.isCompleted = true := by
    refine runLoop_forall ev (sg space) (cancelAfter i) (fun r => r.isCompleted = true)
      ?_ ?_ M 0 [] (by simp)
    · intro _ _ _ _
      rfl
    · intro _ cfg e he
      rcases hev cfg with ⟨q, hq⟩
      rw [hq] at he
      exact Except.noConfusion he
  have hfl : (runHistory space ev sg (cancelAfter i) M).filter (fun r => r.isCompleted) =
      runHistory space ev sg (cancelAfter i) M :=
    List.filter_eq_self.mpr (fun a ha => by simp [hall a ha])
  have hlen : (runHistory space ev sg (cancelAfter i) M).length = i + 1 := by
    have := congrArg List.length hmap
    simpa using this
  have hemp : ((runHistory space ev sg (cancelAfter i) M).filter
      (fun r => r.isCompleted)).isEmpty = false := by
    rw [hfl]
    cases hhist : runHistory space ev sg (cancelAfter i) M with
    | nil => rw [hhist] at hlen; simp at hlen
    | cons a t => rfl
  refine ⟨?_, ?_, ?_⟩
  · rw [hmap, List.range_eq_range']
  · refine ⟨⟨List.insertionSort rankLE ((runHistory space ev sg (cancelAfter i) M).filter
      (fun r => r.isCompleted))⟩, ?_, ?_⟩
    · rw [run_eq, hemp]
      rfl
    · show (List.insertionSort rankLE _).Perm _
      exact (List.perm_insertionSort rankLE _).trans
        (by rw [hfl])
  · intro sg2 hsg2
    have hloop := runLoop_congr_suggest ev (sg2 space) (sg space) i M 0 []
      (by intro h2 hh2; exact hsg2 h2 (by simpa using hh2))
    unfold run runHistory
    rw [hloop]

/-- C5 witness: cancelling after trial 2 of a 10-trial run leaves a history
with exactly the trial indices 0, 1, 2. -/
theorem run_stops_on_cancellation_witness :
    (runHistory hyper_parameter_generators (fun _ => .ok 0) (fun _ _ => [])
      (cancelAfter 2) 10).map (fun r => r.index) = List.range 3 :=
  (run_stops_on_cancellation hyper_parameter_generators (fun _ => .ok 0)
    (fun _ _ => []) 10 2 (by decide) (fun _ => ⟨0, rfl⟩)).1

/-- C4: any configuration conforming to the declared search space has each
categorical value inside its declared choice list (`channels`,
`kernel_size`, `depth`, `mlp_depth`, `mlp_hl`), `dp` within `[0, 0.5]`, and
the logarithm of `lr` within `[log 0.0001, log 0.1]`. -/
theorem suggested_values_within_declared_ranges (cfg : Config)
    (h : ConfigValid hyper_parameter_generators cfg) :
    (∀ v, lookupParam cfg "model_params" "channels" = some v →
      v ∈ ([5, 10, 20, 30, 50] : List ℚ)) ∧
    (∀ v, lookupParam cfg "model_params" "kernel_size" = some v →
      v ∈ ([3, 5, 7] : List ℚ)) ∧
    (∀ v, lookupParam cfg "model_params" "depth" = some v →
      v ∈ ([1, 2, 3, 4] : List ℚ)) ∧
    (∀ v, lookupParam cfg "model_params" "mlp_depth" = some v →
      v ∈ ([1, 2, 3, 4] : List ℚ)) ∧
    (∀ v, lookupParam cfg "model_params" "mlp_hl" = some v →
      v ∈ ([32, 64, 128, 256] : List ℚ)) ∧
    (∀ v, lookupParam cfg "model_params" "dp" = some v →
      0 ≤ v ∧ v ≤ oneHalf) ∧
    (∀ v : ℚ, lookupParam cfg "training_params" "lr" = some v →
      Real.log ((lrLow : ℚ) : ℝ) ≤ Real.log (v : ℝ) ∧
      Real.log (v : ℝ) ≤ Real.log ((lrHigh : ℚ) : ℝ)) := by
  refine ⟨?_, ?_, ?_, ?_, ?_, ?_, ?_⟩
  · intro v hv
    exact configValid_lookupParam h
      (show List.lookup "model_params" hyper_parameter_generators =
        some model_params_specs from rfl)
      (show List.lookup "channels" model_params_specs =
        some (.categorical [5, 10, 20, 30, 50]) from rfl) hv
  · intro v hv
    exact configValid_lookupParam h
      (show List.lookup "model_params" hyper_parameter_generators =
        some model_params_specs from rfl)
      (show List.lookup "kernel_size" model_params_specs =
        some (.categorical [3, 5, 7]) from rfl) hv
  · intro v hv
    exact configValid_lookupParam h
      (show List.lookup "model_params" hyper_parameter_generators =
        some model_params_specs from rfl)
      (show List.lookup "depth" model_params_specs =
        some (.categorical [1, 2, 3, 4]) from rfl) hv
  · intro v hv
    exact configValid_lookupParam h
      (show List.lookup "model_params" hyper_parameter_generators =
        some model_params_specs from rfl)
      (show List.lookup "mlp_depth" model_params_specs =
        some (.categorical [1, 2, 3, 4]) from rfl) hv
  · intro v hv
    exact configValid_lookupParam h
      (show List.lookup "model_params" hyper_parameter_generators =
        some model_params_specs from rfl)
      (show List.lookup "mlp_hl" model_params_specs =
        some (.categorical [32, 64, 128, 256]) from rfl) hv
  · intro v hv
    exact configValid_lookupParam h
      (show List.lookup "model_params" hyper_parameter_generators =
        some model_params_specs from rfl)
      (show List.lookup "dp" model_params_specs =
        some (.uniform 0 oneHalf) from rfl) hv
  · intro v hv
    have hs : sampleValid (.loguniform lrLow lrHigh) v :=
      configValid_lookupParam h
        (show List.lookup "training_params" hyper_parameter_generators =
          some training_params_specs from rfl)
        (show List.lookup "lr" training_params_specs =
          some (.loguniform lrLow lrHigh) from rfl) hv
    have hq : lrLow ≤ v ∧ v ≤ lrHigh := hs
    have hpos : (0 : ℚ) < lrLow := by decide
    have hposR : (0 : ℝ) < ((lrLow : ℚ) : ℝ) := by exact_mod_cast hpos
    have h1R : ((lrLow : ℚ) : ℝ) ≤ (v : ℝ) := by exact_mod_cast hq.1
    have h2R : (v : ℝ) ≤ ((lrHigh : ℚ) : ℝ) := by exact_mod_cast hq.2
    exact ⟨Real.log_le_log hposR h1R,
      Real.log_le_log (lt_of_lt_of_le hposR h1R) h2R⟩

/-- C4 witness: the concrete sample configuration is valid for the declared
search space and its `channels` value is one of the declared choices. -/
theorem suggested_values_within_declared_ranges_witness :
    ConfigValid hyper_parameter_generators cfg_sample ∧
      (5 : ℚ) ∈ ([5, 10, 20, 30, 50] : List ℚ) :=
  ⟨by decide,
    (suggested_values_within_declared_ranges cfg_sample (by decide)).1 5 rfl⟩

end PTW
